import Mathlib

/-!
Verification of the `fuzz_reader_with_buffer` fuzz harness
(`core/fuzz/fuzz_reader_with_buffer.rs`) against its specification.

The harness itself (input generation via `Arbitrary`, the `Debug`
formatting, and the write / open-reader / check / delete protocol) is
embedded from the source.  The components the harness exercises
(`BytesRange` resolution, the buffered ranged reader, the seek resolver
and the `ReadChecker` oracle) live outside the staged sources, so they
are modelled from the specification's words; each such definition says so
in its doc comment.

Machine integers are modelled as `Nat`/`Int`: every quantity involved is
bounded by `MAX_DATA_SIZE * 2 < 2^64`, so no wrap-around behaviour of
`u64`/`i64`/`usize` is reachable and the unbounded model is faithful.
-/

namespace OpendalFuzz

/-- `MAX_DATA_SIZE` from the source: `16 * 1024 * 1024`. -/
def MAX_DATA_SIZE : Nat := 16 * 1024 * 1024

/-- Model of `arbitrary::Unstructured`: an infinite stream of raw
non-negative draws together with a cursor.  The real `Unstructured` wraps
a finite byte slice and `int_in_range` never fails (it degrades to the
lower bound when bytes run out); an infinite stream captures the same
total behaviour. -/
structure Unstructured where
  data : Nat → Nat
  cursor : Nat

/-- Advance the draw cursor by one. -/
def Unstructured.next (u : Unstructured) : Unstructured :=
  ⟨u.data, u.cursor + 1⟩

/-- Model of `Unstructured::int_in_range(lo..=hi)` for unsigned integer
ranges: consumes one draw and returns a value in `[lo, hi]` (for
`lo ≤ hi`).  The exact distribution of the real implementation is
irrelevant to the claims; only the range guarantee and surjectivity onto
`[lo, hi]` matter, and `lo + draw % (hi + 1 - lo)` has both. -/
def int_in_range (lo hi : Nat) (u : Unstructured) : Nat × Unstructured :=
  (lo + u.data u.cursor % (hi + 1 - lo), u.next)

/-- Model of `Unstructured::int_in_range(lo..=hi)` for signed integer
ranges, with the same fidelity notes as `int_in_range`. -/
def int_in_range_int (lo hi : Int) (u : Unstructured) : Int × Unstructured :=
  (lo + ((u.data u.cursor % (hi - lo + 1).toNat : Nat) : Int), u.next)

/-- `std::io::SeekFrom`.  `Start` carries an unsigned offset; `Current`
and `End` carry signed deltas, exactly as in the Rust type. -/
inductive SeekFrom where
  | Start : Nat → SeekFrom
  | Current : Int → SeekFrom
  | End : Int → SeekFrom
deriving DecidableEq, Repr

/-- `opendal::raw::tests::ReadAction`: the action vocabulary the harness
replays (`Read(n)`, `Next`, `Seek(whence, offset)`). -/
inductive ReadAction where
  | Read : Nat → ReadAction
  | Next : ReadAction
  | Seek : SeekFrom → ReadAction
deriving DecidableEq, Repr

/-- `opendal::raw::BytesRange`: optional offset and optional size, as
used by the harness (`BytesRange::new(offset, size)`). -/
structure BytesRange where
  offset : Option Nat
  size : Option Nat
deriving DecidableEq, Repr

/-- `BytesRange::new`. -/
def BytesRange.new (offset size : Option Nat) : BytesRange :=
  ⟨offset, size⟩

/-- Modelled from the spec (§4.1, the `BytesRange` resolution is not in
the staged sources): `resolve(total_size) -> (start, end)`.  Absent
offset starts at 0; absent size extends to the object's end; an offset
past the end clamps `start = total_size`; an end past the object clamps
`end = total_size`. -/
def BytesRange.resolve (r : BytesRange) (total : Nat) : Nat × Nat :=
  (min (r.offset.getD 0) total,
    match r.size with
    | none => total
    | some s => min (r.offset.getD 0 + s) total)

/-- The same window computation with no clamping at all; comparing it
with `BytesRange.resolve` detects whether the clamping branches are
exercised. -/
def BytesRange.resolveUnclamped (r : BytesRange) (total : Nat) : Nat × Nat :=
  (r.offset.getD 0,
    match r.size with
    | none => total
    | some s => r.offset.getD 0 + s)

/-- The `FuzzInput` struct of the harness.  The `path` field is produced
by `uuid::Uuid::new_v4()`, an external randomness source independent of
the `Unstructured` draws; it is threaded into the generator as an
explicit parameter. -/
structure FuzzInput where
  path : String
  size : Nat
  range : BytesRange
  actions : List ReadAction
deriving DecidableEq, Repr

/-- The action list displayed by the harness's `Debug` impl: a copy of
`actions` with every `Read(0)` entry removed
(`actions.retain(|e| e != &empty)`). -/
def FuzzInput.fmtActions (input : FuzzInput) : List ReadAction :=
  input.actions.filter (fun a => decide (a ≠ ReadAction.Read 0))

/-- The harness's `Debug` formatting of a `FuzzInput`, as the tuple of
fields it displays: path, size, range and the filtered action list.
(The textual rendering of `BytesRange` by `Display` lives outside the
staged sources; the field values shown are what matters here.) -/
def FuzzInput.fmt (input : FuzzInput) : String × Nat × BytesRange × List ReadAction :=
  (input.path, input.size, input.range, input.fmtActions)

/-- The `(offset, size)` generation of `FuzzInput::arbitrary`: a four-way
match on a draw from `0..=3`.  The Rust `unreachable!()` default arm is
modelled as `none` (a panic), so proving the result is always `some`
proves the arm dead. -/
def genRange (total tag : Nat) (u : Unstructured) :
    Option (Option Nat × Option Nat) × Unstructured :=
  if tag = 0 then (some (none, none), u)
  else if tag = 1 then
    let o := int_in_range 0 (total - 1) u
    (some (some o.1, none), o.2)
  else if tag = 2 then
    let s := int_in_range 1 total u
    (some (none, some s.1), s.2)
  else if tag = 3 then
    let o := int_in_range 0 (total - 1) u
    let s := int_in_range 1 (total - o.1) o.2
    (some (some o.1, some s.1), s.2)
  else (none, u)

/-- One action of the generation loop of `FuzzInput::arbitrary`: a
five-way match on a draw from `0..=4`, with the `unreachable!()` arm
modelled as `none`. -/
def genAction (total : Nat) (u : Unstructured) : Option ReadAction × Unstructured :=
  let t := int_in_range 0 4 u
  let tag := t.1
  let u1 := t.2
  if tag = 0 then
    let s := int_in_range 0 (total * 2) u1
    (some (ReadAction.Read s.1), s.2)
  else if tag = 1 then (some ReadAction.Next, u1)
  else if tag = 2 then
    let o := int_in_range 0 (total * 2) u1
    (some (ReadAction.Seek (SeekFrom.Start o.1)), o.2)
  else if tag = 3 then
    let d := int_in_range_int (-(total : Int)) (total : Int) u1
    (some (ReadAction.Seek (SeekFrom.Current d.1)), d.2)
  else if tag = 4 then
    let d := int_in_range_int (-(total : Int)) (total : Int) u1
    (some (ReadAction.Seek (SeekFrom.End d.1)), d.2)
  else (none, u1)

/-- The `for _ in 0..count` action-generation loop, preserving order. -/
def genActions (total : Nat) : Nat → Unstructured → Option (List ReadAction) × Unstructured
  | 0, u => (some [], u)
  | n + 1, u =>
    match genAction total u with
    | (none, u1) => (none, u1)
    | (some a, u1) =>
      match genActions total n u1 with
      | (none, u2) => (none, u2)
      | (some rest, u2) => (some (a :: rest), u2)

/-- `FuzzInput::arbitrary`: draws `total_size` from `1..=MAX_DATA_SIZE`,
a range tag from `0..=3`, an action count from `1..=1024` and then the
actions.  `none` models a panic through an `unreachable!()` arm. -/
def FuzzInput.arbitrary (path : String) (u0 : Unstructured) : Option FuzzInput :=
  let t := int_in_range 1 MAX_DATA_SIZE u0
  let g := int_in_range 0 3 t.2
  match genRange t.1 g.1 g.2 with
  | (none, _) => none
  | (some os, u3) =>
    let c := int_in_range 1 1024 u3
    match genActions t.1 c.1 c.2 with
    | (none, _) => none
    | (some actions, _) =>
      some { path := path, size := t.1, range := BytesRange.new os.1 os.2, actions := actions }

/-- Modelled from the spec (§4.2 SeekResolver, not in the staged
sources): pure position math mapping `(whence, offset)` plus the current
logical position and the window length to a new logical position, or
`none` (a `SeekFault`) when the computed position is negative.  No upper
clamp: positions beyond the window length are legal. -/
def seekResolve (s : SeekFrom) (cur winLen : Nat) : Option Nat :=
  match s with
  | .Start o => some o
  | .Current d => if (cur : Int) + d < 0 then none else some ((cur : Int) + d).toNat
  | .End d => if (winLen : Int) + d < 0 then none else some ((winLen : Int) + d).toNat

/-- Modelled from the spec (§3, §4.3): the state of the
`BufferedRangedReader` — the resolved window `[winStart, winStart +
winLen)` in absolute object coordinates, the buffer capacity, the logical
position relative to the window start, and the internal buffer with the
logical position of its first byte. -/
structure Reader where
  winStart : Nat
  winLen : Nat
  capacity : Nat
  pos : Nat
  bufStart : Nat
  buf : List Nat
deriving DecidableEq, Repr

/-- Modelled from the spec (§6 `fetch`): the bytes of `content` in the
absolute range `[s, e)`, or the tail if the object is shorter. -/
def fetchBytes (content : List Nat) (s e : Nat) : List Nat :=
  (content.drop s).take (e - s)

/-- Modelled from the spec (§4.3 seek): delegate the position math to the
seek resolver; on fault return `none` (the caller's reader is unchanged);
on success keep the buffer when the new position falls inside the
buffered span, otherwise mark it stale (emptied) without refilling. -/
def Reader.seek (r : Reader) (s : SeekFrom) : Option (Nat × Reader) :=
  match seekResolve s r.pos r.winLen with
  | none => none
  | some p =>
    if r.bufStart ≤ p ∧ p ≤ r.bufStart + r.buf.length then
      some (p, { r with pos := p })
    else
      some (p, { r with pos := p, bufStart := p, buf := [] })

/-- Modelled from the spec (§4.3 read, steps 1-5): `read(n)` returns an
empty sequence at once for `n = 0`, an empty success at or past the end
of the window, a copy from the buffer when it covers the position, and
otherwise refills the buffer with one backend fetch of up to `capacity`
bytes.  The result carries the returned bytes, the new reader state and
the list of absolute ranges fetched (empty or a singleton); `fetchOk =
false` makes the backend fetch fail, modelling an opaque `FetchError`. -/
def Reader.read (r : Reader) (fetchOk : Bool) (content : List Nat) (n : Nat) :
    Except Unit (List Nat × Reader × List (Nat × Nat)) :=
  if n = 0 then .ok ([], r, [])
  else if r.winLen ≤ r.pos then .ok ([], r, [])
  else if r.bufStart ≤ r.pos ∧ r.pos < r.bufStart + r.buf.length then
    let m := min n (r.bufStart + r.buf.length - r.pos)
    .ok ((r.buf.drop (r.pos - r.bufStart)).take m, { r with pos := r.pos + m }, [])
  else if fetchOk then
    let fend := min (r.pos + r.capacity) r.winLen
    let chunk := fetchBytes content (r.winStart + r.pos) (r.winStart + fend)
    let m := min n chunk.length
    .ok (chunk.take m, { r with bufStart := r.pos, buf := chunk, pos := r.pos + m },
      [(r.winStart + r.pos, r.winStart + fend)])
  else .error ()

/-- Modelled from the spec: `ReadChecker::new` builds the reference byte
content deterministically from the object size alone; any fixed
deterministic byte function is faithful to that contract. -/
def referenceData (n : Nat) : List Nat :=
  (List.range n).map (fun i => i % 256)

/-- One observable backend operation of a fuzz run. -/
inductive Op where
  | write : String → Op
  | delete : String → Op
  | fetch : Nat → Nat → Op
deriving DecidableEq, Repr

/-- Whether an operation mutates the backend (`write`/`delete`, as
opposed to a read-only `fetch`). -/
def Op.isMut : Op → Bool
  | .write _ => true
  | .delete _ => true
  | .fetch _ _ => false

/-- The state of the replay oracle: the reader under test, the oracle's
own tracked logical position, whether every assertion so far held, the
backend operations issued, and how many actions were replayed. -/
structure CheckState where
  reader : Reader
  cur : Nat
  ok : Bool
  ops : List Op
  steps : Nat
deriving Repr

/-- Modelled from the spec (§6 ReadOracle): replay one action.  A
`Read`/`Next` result must match the reference window content at the
tracked position; a `Seek` must fault exactly when the seek-resolver rule
applied to the tracked position predicts a fault, and must land on the
predicted position otherwise. -/
def checkStep (fetchOk : Bool) (content window : List Nat) (winLen : Nat)
    (st : CheckState) (a : ReadAction) : CheckState :=
  let st1 :=
    match a with
    | .Read n =>
      match st.reader.read fetchOk content n with
      | .error _ => { st with ok := false }
      | .ok (bytes, r1, fs) =>
        { st with
          reader := r1
          cur := st.cur + bytes.length
          ok := st.ok && decide (bytes = (window.drop st.cur).take bytes.length)
          ops := st.ops ++ fs.map (fun p : Nat × Nat => Op.fetch p.1 p.2) }
    | .Next =>
      match st.reader.read fetchOk content st.reader.capacity with
      | .error _ => { st with ok := false }
      | .ok (bytes, r1, fs) =>
        { st with
          reader := r1
          cur := st.cur + bytes.length
          ok := st.ok && decide (bytes = (window.drop st.cur).take bytes.length)
          ops := st.ops ++ fs.map (fun p : Nat × Nat => Op.fetch p.1 p.2) }
    | .Seek s =>
      match st.reader.seek s, seekResolve s st.cur winLen with
      | none, none => st
      | none, some _ => { st with ok := false }
      | some _, none => { st with ok := false }
      | some pr, some q =>
        { st with
          reader := pr.2
          cur := q
          ok := st.ok && decide (pr.1 = q) }
  { st1 with steps := st.steps + 1 }

/-- Modelled from the spec (§6 ReadOracle, `ReadChecker::check`): resolve
the range against the object size, slice the reference window out of the
stored content, and replay the whole action sequence from a fresh oracle
state. -/
def runCheck (fetchOk : Bool) (content : List Nat) (range : BytesRange) (total : Nat)
    (r : Reader) (actions : List ReadAction) : CheckState :=
  let se := range.resolve total
  let window := (content.drop se.1).take (se.2 - se.1)
  actions.foldl (checkStep fetchOk content window (se.2 - se.1))
    { reader := r, cur := 0, ok := true, ops := [], steps := 0 }

/-- The backend's observable state: the stored object per path. -/
structure Backend where
  objects : String → Option (List Nat)

/-- The error taxonomy the harness can see: an opaque backend failure or
a rejected configuration (zero buffer capacity). -/
inductive Error where
  | backend : Error
  | config : Error
deriving DecidableEq, Repr

/-- Which backend operations succeed in a given run; `false` models the
corresponding opaque backend failure. -/
structure Env where
  writeOk : Bool
  openOk : Bool
  fetchOk : Bool
  deleteOk : Bool

/-- Modelled from the spec (§6 `write`): stage an object at a path, or
fail opaquely. -/
def opWrite (env : Env) (b : Backend) (path : String) (data : List Nat) :
    Except Error Backend :=
  if env.writeOk then .ok ⟨fun p => if p = path then some data else b.objects p⟩
  else .error .backend

/-- Modelled from the spec (§6 `delete`): remove the object at a path, or
fail opaquely. -/
def opDelete (env : Env) (b : Backend) (path : String) : Except Error Backend :=
  if env.deleteOk then .ok ⟨fun p => if p = path then none else b.objects p⟩
  else .error .backend

/-- The constant buffer capacity the harness passes to
`reader_with(..).buffer(4096)`. -/
def harnessCapacity : Nat := 4096

/-- A fresh reader over the window `range.resolve total`, with the given
buffer capacity, at logical position 0 with an empty buffer. -/
def mkReader (total : Nat) (range : BytesRange) (cap : Nat) : Reader :=
  ⟨(range.resolve total).1, (range.resolve total).2 - (range.resolve total).1,
    cap, 0, 0, []⟩

/-- Modelled from the spec (§6 `open_reader`): construct a reader bound
to the resolved window.  A zero buffer capacity is invalid configuration
and rejected at construction; backend failure is opaque. -/
def openReader (env : Env) (total : Nat) (range : BytesRange) (cap : Nat) :
    Except Error Reader :=
  if env.openOk then
    if cap = 0 then .error .config else .ok (mkReader total range cap)
  else .error .backend

/-- The observable outcome of one run of the async harness body: normal
completion with the final backend state, the oracle's final state and the
backend-operation trace; an error returned through `?`; or a panic raised
by a failed oracle assertion inside `check`. -/
inductive Outcome where
  | success : Backend → CheckState → List Op → Outcome
  | errored : Error → Outcome
  | panicked : Outcome

/-- Whether an outcome is a normal completion. -/
def Outcome.isSuccess : Outcome → Bool
  | .success _ _ _ => true
  | _ => false

/-- The final backend state of a successful outcome (per path). -/
def Outcome.finalObjects : Outcome → String → Option (List Nat)
  | .success b _ _ => b.objects
  | _ => fun _ => none

/-- The backend-operation trace of a successful outcome. -/
def Outcome.trace : Outcome → List Op
  | .success _ _ t => t
  | _ => []

/-- How many actions the oracle replayed in a successful outcome. -/
def Outcome.checkedSteps : Outcome → Nat
  | .success _ res _ => res.steps
  | _ => 0

/-- The harness body `fuzz_reader_with_buffer(op, input)`, embedded from
the source: build the checker (reference content from the object size),
write `checker.data()` at `input.path`, open a reader over
`input.range` with buffer capacity 4096, run `checker.check(r,
&input.actions)` (whose failed assertions panic), then delete the object;
each fallible step propagates its error via `?`. -/
def fuzz_reader_with_buffer (env : Env) (b : Backend) (input : FuzzInput) : Outcome :=
  let data := referenceData input.size
  match opWrite env b input.path data with
  | .error e => .errored e
  | .ok b1 =>
    match openReader env input.size input.range harnessCapacity with
    | .error e => .errored e
    | .ok r =>
      let content := (b1.objects input.path).getD []
      let res := runCheck env.fetchOk content input.range input.size r input.actions
      if res.ok then
        match opDelete env b1 input.path with
        | .error e => .errored e
        | .ok b2 =>
          .success b2 res ([Op.write input.path] ++ res.ops ++ [Op.delete input.path])
      else .panicked

/-- The outcome of the `fuzz_target!` entry point: completion, or a
panic. -/
inductive TargetOutcome where
  | completed : Backend → TargetOutcome
  | panicked : TargetOutcome

/-- The `fuzz_target!` closure, embedded from the source: run the harness
body and turn any returned error into a panic
(`unwrap_or_else(|err| panic ...)`); a panic from inside the body
propagates. -/
def fuzz_target (env : Env) (b : Backend) (input : FuzzInput) : TargetOutcome :=
  match fuzz_reader_with_buffer env b input with
  | .success b2 _ _ => .completed b2
  | .errored _ => .panicked
  | .panicked => .panicked

/-- The oracle protocol exactly as the spec's §6 ReadOracle contract
words it, written independently of the harness embedding: construct the
reference content deterministically from the object size; write it at
the input's path (or abort on error); open a reader over the resolved
range with the harness capacity (or abort on error, a zero capacity
being rejected as configuration); replay the action sequence with the
oracle's assertions, panicking when one fails; delete the object (or
abort on error); afterwards the backend no longer holds the object and
every other path is untouched. -/
def specOracleRun (env : Env) (b : Backend) (input : FuzzInput) : Outcome :=
  if env.writeOk = false then .errored .backend
  else if env.openOk = false then .errored .backend
  else if harnessCapacity = 0 then .errored .config
  else
    let data := referenceData input.size
    let res := runCheck env.fetchOk data input.range input.size
      (mkReader input.size input.range harnessCapacity) input.actions
    if res.ok = false then .panicked
    else if env.deleteOk = false then .errored .backend
    else
      .success ⟨fun p => if p = input.path then none else b.objects p⟩ res
        ([Op.write input.path] ++ res.ops ++ [Op.delete input.path])

/-! ## Bounds of the draw primitives -/

theorem int_in_range_le {lo hi : Nat} (h : lo ≤ hi) (u : Unstructured) :
    (int_in_range lo hi u).1 ≤ hi := by
  have hk : 0 < hi + 1 - lo := by omega
  have := Nat.mod_lt (u.data u.cursor) hk
  simp only [int_in_range]
  omega

theorem int_in_range_ge (lo hi : Nat) (u : Unstructured) :
    lo ≤ (int_in_range lo hi u).1 := by
  simp only [int_in_range]
  omega

theorem int_in_range_int_bounds {lo hi : Int} (h : lo ≤ hi) (u : Unstructured) :
    lo ≤ (int_in_range_int lo hi u).1 ∧ (int_in_range_int lo hi u).1 ≤ hi := by
  have hk : 0 < (hi - lo + 1).toNat := by omega
  have hm : u.data u.cursor % (hi - lo + 1).toNat < (hi - lo + 1).toNat :=
    Nat.mod_lt _ hk
  simp only [int_in_range_int]
  omega

/-! ## What the generator can produce -/

/-- The range shapes `FuzzInput::arbitrary` generates: present offsets
are at most `total - 1`, present sizes are at least 1, and
`offset + size ≤ total`. -/
def rangeOK (total : Nat) : Option Nat → Option Nat → Prop
  | none, none => True
  | some o, none => o ≤ total - 1
  | none, some s => 1 ≤ s ∧ s ≤ total
  | some o, some s => o ≤ total - 1 ∧ 1 ≤ s ∧ o + s ≤ total

/-- The per-action bounds the generation loop guarantees. -/
def actionOK (total : Nat) : ReadAction → Prop
  | .Read n => n ≤ 2 * total
  | .Next => True
  | .Seek (.Start o) => o ≤ 2 * total
  | .Seek (.Current d) => -(total : Int) ≤ d ∧ d ≤ (total : Int)
  | .Seek (.End d) => -(total : Int) ≤ d ∧ d ≤ (total : Int)

theorem genRange_ok {total tag : Nat} {u u' : Unstructured}
    {os : Option Nat × Option Nat} (h1 : 1 ≤ total)
    (h : genRange total tag u = (some os, u')) : rangeOK total os.1 os.2 := by
  unfold genRange at h
  split_ifs at h
  · simp only [Prod.mk.injEq, Option.some.injEq] at h
    obtain ⟨rfl, -⟩ := h
    trivial
  · simp only [Prod.mk.injEq, Option.some.injEq] at h
    obtain ⟨rfl, -⟩ := h
    have := int_in_range_le (show (0:Nat) ≤ total - 1 by omega) u
    simpa [rangeOK] using this
  · simp only [Prod.mk.injEq, Option.some.injEq] at h
    obtain ⟨rfl, -⟩ := h
    have ha := int_in_range_ge 1 total u
    have hb := int_in_range_le h1 u
    exact ⟨ha, hb⟩
  · simp only [Prod.mk.injEq, Option.some.injEq] at h
    obtain ⟨rfl, -⟩ := h
    have ho := int_in_range_le (show (0:Nat) ≤ total - 1 by omega) u
    have hs1 := int_in_range_ge 1 (total - (int_in_range 0 (total - 1) u).1)
      (int_in_range 0 (total - 1) u).2
    have hs2 := int_in_range_le
      (show (1:Nat) ≤ total - (int_in_range 0 (total - 1) u).1 by omega)
      (int_in_range 0 (total - 1) u).2
    exact ⟨ho, hs1, by omega⟩
  · exact absurd h (by simp)

theorem genAction_ok {total : Nat} {u u' : Unstructured} {a : ReadAction}
    (h : genAction total u = (some a, u')) : actionOK total a := by
  have hd : -(total : Int) ≤ (total : Int) := by omega
  simp only [genAction] at h
  split_ifs at h
  all_goals simp only [Prod.mk.injEq, Option.some.injEq] at h
  · obtain ⟨rfl, -⟩ := h
    have := int_in_range_le (Nat.zero_le (total * 2)) (int_in_range 0 4 u).2
    simp only [actionOK]
    omega
  · obtain ⟨rfl, -⟩ := h
    trivial
  · obtain ⟨rfl, -⟩ := h
    have := int_in_range_le (Nat.zero_le (total * 2)) (int_in_range 0 4 u).2
    simp only [actionOK]
    omega
  · obtain ⟨rfl, -⟩ := h
    exact int_in_range_int_bounds hd (int_in_range 0 4 u).2
  · obtain ⟨rfl, -⟩ := h
    exact int_in_range_int_bounds hd (int_in_range 0 4 u).2
  · exact absurd h.1 (by simp)

theorem genAction_isSome (total : Nat) (u : Unstructured) :
    ((genAction total u).1).isSome = true := by
  have htag := int_in_range_le (show (0:Nat) ≤ 4 by omega) u
  simp only [genAction]
  split_ifs with h0 h1 h2 h3 h4
  all_goals simp
  omega

theorem genActions_mem {total : Nat} :
    ∀ {n : Nat} {u u' : Unstructured} {acts : List ReadAction},
      genActions total n u = (some acts, u') →
      ∀ a ∈ acts, actionOK total a := by
  intro n
  induction n with
  | zero =>
    intro u u' acts h a ha
    simp only [genActions, Prod.mk.injEq, Option.some.injEq] at h
    obtain ⟨rfl, -⟩ := h
    cases ha
  | succ n ih =>
    intro u u' acts h a ha
    simp only [genActions] at h
    split at h
    · exact absurd h (by simp)
    · rename_i a0 u1 heqg
      split at h
      · exact absurd h (by simp)
      · rename_i rest u2 heqr
        simp only [Prod.mk.injEq, Option.some.injEq] at h
        obtain ⟨rfl, -⟩ := h
        cases ha with
        | head => exact genAction_ok heqg
        | tail _ hmem => exact ih heqr a hmem

theorem genActions_isSome (total : Nat) :
    ∀ (n : Nat) (u : Unstructured), ((genActions total n u).1).isSome = true := by
  intro n
  induction n with
  | zero => intro u; simp [genActions]
  | succ n ih =>
    intro u
    simp only [genActions]
    split
    · rename_i u1 heqg
      have := genAction_isSome total u
      rw [heqg] at this
      simp at this
    · rename_i a0 u1 heqg
      split
      · rename_i u2 heqr
        have := ih u1
        rw [heqr] at this
        simp at this
      · simp

/-- Inversion of `FuzzInput.arbitrary`: a generated input's size comes
from the `1..=MAX_DATA_SIZE` draw, its range from `genRange`, its action
list from `genActions`, and its path from the uuid parameter. -/
theorem arbitrary_inv {path : String} {u : Unstructured} {inp : FuzzInput}
    (h : FuzzInput.arbitrary path u = some inp) :
    1 ≤ inp.size ∧ inp.size ≤ MAX_DATA_SIZE
    ∧ (∃ tag u1 u2, genRange inp.size tag u1 = (some (inp.range.offset, inp.range.size), u2))
    ∧ (∃ n u3 u4, genActions inp.size n u3 = (some inp.actions, u4))
    ∧ inp.path = path := by
  have hge := int_in_range_ge 1 MAX_DATA_SIZE u
  have hle := int_in_range_le (show (1:Nat) ≤ MAX_DATA_SIZE by decide) u
  simp only [FuzzInput.arbitrary] at h
  split at h
  · exact absurd h (by simp)
  · rename_i os u3 heqr
    split at h
    · exact absurd h (by simp)
    · rename_i actions u5 heqa
      simp only [Option.some.injEq] at h
      subst h
      exact ⟨hge, hle, ⟨_, _, _, heqr⟩, ⟨_, _, _, heqa⟩, rfl⟩

theorem genRange_isSome (total : Nat) {tag : Nat} (htag : tag ≤ 3)
    (u : Unstructured) : ((genRange total tag u).1).isSome = true := by
  unfold genRange
  split_ifs with h0 h1 h2 h3
  all_goals simp
  omega

theorem arbitrary_isSome (path : String) (u : Unstructured) :
    (FuzzInput.arbitrary path u).isSome = true := by
  simp only [FuzzInput.arbitrary]
  split
  · rename_i u3 heqr
    have htag := int_in_range_le (show (0:Nat) ≤ 3 by omega)
      (int_in_range 1 MAX_DATA_SIZE u).2
    have := genRange_isSome (int_in_range 1 MAX_DATA_SIZE u).1 htag
      (int_in_range 0 3 (int_in_range 1 MAX_DATA_SIZE u).2).2
    rw [heqr] at this
    simp at this
  · rename_i os u3 heqr
    split
    · rename_i u5 heqa
      have := genActions_isSome (int_in_range 1 MAX_DATA_SIZE u).1
        (int_in_range 1 1024 u3).1 (int_in_range 1 1024 u3).2
      rw [heqa] at this
      simp at this
    · simp

/-- Every action of a generated input obeys the per-action bounds. -/
theorem arbitrary_actions_ok {path : String} {u : Unstructured} {inp : FuzzInput}
    (h : FuzzInput.arbitrary path u = some inp) :
    ∀ a ∈ inp.actions, actionOK inp.size a := by
  obtain ⟨-, -, -, ⟨n, u3, u4, ha⟩, -⟩ := arbitrary_inv h
  exact genActions_mem ha

/-- The range of a generated input obeys the range-shape bounds. -/
theorem arbitrary_range_ok {path : String} {u : Unstructured} {inp : FuzzInput}
    (h : FuzzInput.arbitrary path u = some inp) :
    rangeOK inp.size inp.range.offset inp.range.size := by
  obtain ⟨h1, -, ⟨tag, u1, u2, hr⟩, -, -⟩ := arbitrary_inv h
  exact genRange_ok h1 hr

/-! ## Reader-level facts -/

/-- `read(0)` returns an empty sequence, leaves the reader unchanged and
issues no backend fetch, whether or not the backend would answer. -/
theorem read_zero (r : Reader) (fetchOk : Bool) (content : List Nat) :
    r.read fetchOk content 0 = .ok ([], r, []) := by
  simp [Reader.read]

/-- At or past the end of the window, `read(n)` returns an empty success
with the reader unchanged and no fetch, for every `n`. -/
theorem read_eof {r : Reader} (heof : r.winLen ≤ r.pos) (fetchOk : Bool)
    (content : List Nat) (n : Nat) :
    r.read fetchOk content n = .ok ([], r, []) := by
  unfold Reader.read
  rcases Nat.eq_zero_or_pos n with rfl | hn
  · rw [if_pos rfl]
  · rw [if_neg (by omega), if_pos heof]

/-- `Seek(FromStart, o)` always succeeds and moves the logical position
to `o`, keeping the window unchanged. -/
theorem seek_start (r : Reader) (o : Nat) :
    ∃ r2 : Reader, r.seek (SeekFrom.Start o) = some (o, r2)
      ∧ r2.pos = o ∧ r2.winLen = r.winLen := by
  by_cases h : r.bufStart ≤ o ∧ o ≤ r.bufStart + r.buf.length
  · exact ⟨{ r with pos := o },
      by simp only [Reader.seek, seekResolve]; rw [if_pos h], rfl, rfl⟩
  · exact ⟨{ r with pos := o, bufStart := o, buf := [] },
      by simp only [Reader.seek, seekResolve]; rw [if_neg h], rfl, rfl⟩

/-- `Seek(FromCurrent, d)` with `pos + d < 0` is a fault. -/
theorem seek_current_fault {r : Reader} {d : Int}
    (h : (r.pos : Int) + d < 0) : r.seek (SeekFrom.Current d) = none := by
  simp [Reader.seek, seekResolve, h]

/-- `Seek(FromEnd, d)` with `winLen + d < 0` is a fault. -/
theorem seek_end_fault {r : Reader} {d : Int}
    (h : (r.winLen : Int) + d < 0) : r.seek (SeekFrom.End d) = none := by
  simp [Reader.seek, seekResolve, h]

/-- A faulting seek replayed by the oracle leaves the reader under test
and the oracle's tracked position unchanged. -/
theorem checkStep_seek_fault {fetchOk : Bool} {content window : List Nat}
    {winLen : Nat} {st : CheckState} {s : SeekFrom}
    (h : st.reader.seek s = none) :
    (checkStep fetchOk content window winLen st (ReadAction.Seek s)).reader = st.reader
    ∧ (checkStep fetchOk content window winLen st (ReadAction.Seek s)).cur = st.cur := by
  simp only [checkStep]
  rw [h]
  split <;> simp_all

/-! ## Oracle bookkeeping -/

theorem checkStep_steps (fetchOk : Bool) (content window : List Nat) (winLen : Nat)
    (st : CheckState) (a : ReadAction) :
    (checkStep fetchOk content window winLen st a).steps = st.steps + 1 := rfl

/-- The oracle replays every action of the sequence, one step each. -/
theorem foldl_checkStep_steps (fetchOk : Bool) (content window : List Nat)
    (winLen : Nat) :
    ∀ (l : List ReadAction) (init : CheckState),
      (l.foldl (checkStep fetchOk content window winLen) init).steps
        = init.steps + l.length := by
  intro l
  induction l with
  | nil => intro init; simp
  | cons a t ih =>
    intro init
    simp only [List.foldl_cons, List.length_cons, ih, checkStep_steps]
    omega

theorem runCheck_steps (fetchOk : Bool) (content : List Nat) (range : BytesRange)
    (total : Nat) (r : Reader) (actions : List ReadAction) :
    (runCheck fetchOk content range total r actions).steps = actions.length := by
  unfold runCheck
  rw [foldl_checkStep_steps]
  simp

theorem checkStep_ops_mut {fetchOk : Bool} {content window : List Nat}
    {winLen : Nat} {st : CheckState} {a : ReadAction}
    (h : ∀ op ∈ st.ops, op.isMut = false) :
    ∀ op ∈ (checkStep fetchOk content window winLen st a).ops, op.isMut = false := by
  unfold checkStep
  cases a <;> dsimp only
  · split
    · exact h
    · rename_i bytes r1 fs heq
      intro op hop
      rcases List.mem_append.mp hop with hl | hr
      · exact h op hl
      · obtain ⟨p, -, rfl⟩ := List.mem_map.mp hr
        rfl
  · split
    · exact h
    · rename_i bytes r1 fs heq
      intro op hop
      rcases List.mem_append.mp hop with hl | hr
      · exact h op hl
      · obtain ⟨p, -, rfl⟩ := List.mem_map.mp hr
        rfl
  · split <;> exact h

theorem foldl_checkStep_ops_mut (fetchOk : Bool) (content window : List Nat)
    (winLen : Nat) :
    ∀ (l : List ReadAction) (init : CheckState),
      (∀ op ∈ init.ops, op.isMut = false) →
      ∀ op ∈ (l.foldl (checkStep fetchOk content window winLen) init).ops,
        op.isMut = false := by
  intro l
  induction l with
  | nil => intro init h; simpa using h
  | cons a t ih =>
    intro init h
    exact ih _ (checkStep_ops_mut h)

/-- Every backend operation the oracle issues is a read-only fetch. -/
theorem runCheck_ops_mut (fetchOk : Bool) (content : List Nat) (range : BytesRange)
    (total : Nat) (r : Reader) (actions : List ReadAction) :
    ∀ op ∈ (runCheck fetchOk content range total r actions).ops, op.isMut = false := by
  unfold runCheck
  exact foldl_checkStep_ops_mut _ _ _ _ _ _ (by intro op hop; cases hop)

/-! ## The harness protocol -/

/-- The harness body computes exactly the spec's oracle protocol. -/
theorem harness_eq_oracle (env : Env) (b : Backend) (input : FuzzInput) :
    fuzz_reader_with_buffer env b input = specOracleRun env b input := by
  unfold fuzz_reader_with_buffer specOracleRun opWrite openReader opDelete
  rcases env with ⟨w, o, f, d⟩
  cases w <;> cases o <;> cases d <;>
    simp only [Bool.false_eq_true, Bool.true_eq_false, if_true, if_false,
      reduceIte, Option.getD_some, harnessCapacity] <;>
    cases hok : (runCheck f (referenceData input.size) input.range input.size
        (mkReader input.size input.range 4096) input.actions).ok <;>
    simp [hok]
  funext p
  by_cases hp : p = input.path <;> simp [hp]

/-- The oracle state a harness run computes (abbreviation for
statements). -/
def harnessRes (env : Env) (input : FuzzInput) : CheckState :=
  runCheck env.fetchOk (referenceData input.size) input.range input.size
    (mkReader input.size input.range harnessCapacity) input.actions

/-- A successful harness run is exactly the write-check-delete protocol:
the final backend is the initial one with the object gone, the oracle
state is the replay of the whole action sequence, and the trace is the
staging write, the oracle's fetches, and the cleanup delete. -/
theorem harness_success_inv {env : Env} {b : Backend} {input : FuzzInput}
    (h : (fuzz_reader_with_buffer env b input).isSuccess = true) :
    fuzz_reader_with_buffer env b input =
      Outcome.success ⟨fun p => if p = input.path then none else b.objects p⟩
        (harnessRes env input)
        ([Op.write input.path] ++ (harnessRes env input).ops
          ++ [Op.delete input.path]) := by
  rw [harness_eq_oracle] at h ⊢
  simp only [specOracleRun, harnessRes, harnessCapacity] at h ⊢
  split_ifs at h ⊢ <;> first | rfl | simp [Outcome.isSuccess] at h

/-! ## Concrete draw streams and the inputs they generate -/

/-- A draw stream reading from a finite list (0 past its end). -/
def streamOf (l : List Nat) : Unstructured :=
  ⟨fun i => l.getD i 0, 0⟩

/-- The all-zero draw stream: it generates object size 1, the full range,
and the single action `Read(0)`. -/
def uZero : Unstructured := streamOf []

/-- The input `uZero` generates. -/
def inpRead0 : FuzzInput :=
  ⟨"p", 1, ⟨none, none⟩, [ReadAction.Read 0]⟩

/-- A draw stream generating object size 1, the full range, and the
single action `Seek(Current, -1)`. -/
def uCurNeg : Unstructured := streamOf [0, 0, 0, 3, 0]

/-- The input `uCurNeg` generates. -/
def inpCurNeg : FuzzInput :=
  ⟨"p", 1, ⟨none, none⟩, [ReadAction.Seek (SeekFrom.Current (-1))]⟩

/-- A draw stream generating object size 1, the full range, and the
single action `Seek(Start, 2)` — a seek past the window's end. -/
def uStartPast : Unstructured := streamOf [0, 0, 0, 2, 2]

/-- The input `uStartPast` generates. -/
def inpStartPast : FuzzInput :=
  ⟨"p", 1, ⟨none, none⟩, [ReadAction.Seek (SeekFrom.Start 2)]⟩

/-- A draw stream generating object size 1, the full range, and the
single action `Read(2)` — a read larger than the whole window. -/
def uReadBig : Unstructured := streamOf [0, 0, 0, 0, 2]

/-- The input `uReadBig` generates. -/
def inpReadBig : FuzzInput :=
  ⟨"p", 1, ⟨none, none⟩, [ReadAction.Read 2]⟩

/-- The environment in which every backend operation succeeds. -/
def envAllOk : Env := ⟨true, true, true, true⟩

/-- The empty backend. -/
def emptyBackend : Backend := ⟨fun _ => none⟩

/-- `.error .config` detector on reader construction. -/
def isConfigErr : Except Error Reader → Bool
  | .error .config => true
  | _ => false

/-! ## The claims -/

/-- C1: for every `FuzzInput`, `fuzz_reader_with_buffer` performs exactly
the oracle protocol of the spec — reference content built
deterministically from the object size, written at the input's path, a
reader opened over the range, the action sequence replayed with the
oracle's byte and seek-fault assertions, then the object deleted — and
any error returned from write, open or delete makes the `fuzz_target`
entry point panic rather than being swallowed. -/
theorem c1_harness_performs_oracle_protocol :
    (∀ (env : Env) (b : Backend) (input : FuzzInput),
      fuzz_reader_with_buffer env b input = specOracleRun env b input)
    ∧ (∀ (env : Env) (b : Backend) (input : FuzzInput) (e : Error),
      fuzz_reader_with_buffer env b input = Outcome.errored e →
      fuzz_target env b input = TargetOutcome.panicked) := by
  refine ⟨harness_eq_oracle, ?_⟩
  intro env b input e h
  unfold fuzz_target
  rw [h]

/-- C7: the construction-time rejection of a zero buffer capacity is
unreachable in every fuzz run — the harness always opens the reader with
the constant capacity 4096, which satisfies `buffer_capacity ≥ 1`, so
`open_reader` never returns the configuration error. -/
theorem c7_zero_capacity_rejection_unreachable :
    harnessCapacity = 4096 ∧ 1 ≤ harnessCapacity
    ∧ (∀ (env : Env) (total : Nat) (range : BytesRange),
        isConfigErr (openReader env total range harnessCapacity) = false) := by
  refine ⟨rfl, by decide, ?_⟩
  intro env total range
  unfold openReader
  rcases env with ⟨w, o, f, d⟩
  cases o <;> simp [isConfigErr, harnessCapacity]

/-- C10: the `unreachable!()` arms of both match expressions in
`FuzzInput::arbitrary` are dead code — `int_in_range(0..=3)` and
`int_in_range(0..=4)` only return values inside those ranges, so the
generator always returns a well-formed `FuzzInput` and never panics
through those arms (the `none` outcome modelling such a panic never
occurs). -/
theorem c10_unreachable_arms_are_dead :
    (∀ (path : String) (u : Unstructured),
      (FuzzInput.arbitrary path u).isSome = true)
    ∧ (∀ (total : Nat) (u : Unstructured), ((genAction total u).1).isSome = true)
    ∧ (∀ (total tag : Nat) (u : Unstructured), tag ≤ 3 →
        ((genRange total tag u).1).isSome = true) :=
  ⟨arbitrary_isSome, genAction_isSome, fun total _ u htag =>
    genRange_isSome total htag u⟩

theorem resolve_size_none (r : BytesRange) (total : Nat) (h : r.size = none) :
    r.resolve total = (min (r.offset.getD 0) total, total) := by
  unfold BytesRange.resolve
  rw [h]

theorem resolve_size_some (r : BytesRange) {s : Nat} (total : Nat)
    (h : r.size = some s) :
    r.resolve total
      = (min (r.offset.getD 0) total, min (r.offset.getD 0 + s) total) := by
  unfold BytesRange.resolve
  rw [h]

theorem resolveUnclamped_size_none (r : BytesRange) (total : Nat)
    (h : r.size = none) :
    r.resolveUnclamped total = (r.offset.getD 0, total) := by
  unfold BytesRange.resolveUnclamped
  rw [h]

theorem resolveUnclamped_size_some (r : BytesRange) {s : Nat} (total : Nat)
    (h : r.size = some s) :
    r.resolveUnclamped total = (r.offset.getD 0, r.offset.getD 0 + s) := by
  unfold BytesRange.resolveUnclamped
  rw [h]

/-- A range within the generator's shape bounds resolves without any
clamping, to a window inside the object. -/
theorem resolve_tight {r : BytesRange} {total : Nat} (h1 : 1 ≤ total)
    (hr : rangeOK total r.offset r.size) :
    r.resolve total = r.resolveUnclamped total
    ∧ (r.resolve total).1 ≤ (r.resolve total).2
    ∧ (r.resolve total).2 ≤ total := by
  rcases hoff : r.offset with _ | o <;> rcases hsz : r.size with _ | s <;>
    rw [hoff, hsz] at hr <;> simp only [rangeOK] at hr
  · rw [resolve_size_none r total hsz, resolveUnclamped_size_none r total hsz]
    simp [hoff]
  · rw [resolve_size_some r total hsz, resolveUnclamped_size_some r total hsz]
    simp only [hoff, Option.getD_none, Prod.mk.injEq]
    refine ⟨⟨?_, ?_⟩, ?_, ?_⟩ <;> first | trivial | omega
  · rw [resolve_size_none r total hsz, resolveUnclamped_size_none r total hsz]
    simp only [hoff, Option.getD_some, Prod.mk.injEq]
    refine ⟨⟨?_, ?_⟩, ?_, ?_⟩ <;> first | trivial | omega
  · rw [resolve_size_some r total hsz, resolveUnclamped_size_some r total hsz]
    simp only [hoff, Option.getD_some, Prod.mk.injEq]
    refine ⟨⟨?_, ?_⟩, ?_, ?_⟩ <;> first | trivial | omega

/-- C2: every generated `FuzzInput` has `1 ≤ total_size ≤ 16777216` and a
`BytesRange` already inside the object — a present offset is at most
`total_size - 1`, and present offset and size satisfy
`offset + size ≤ total_size` — so the resolved window satisfies
`start ≤ end ≤ object_size` and the clamping path of the resolution is
never exercised (resolution agrees with the clamp-free computation). -/
theorem c2_generated_ranges_within_object :
    ∀ (path : String) (u : Unstructured) (inp : FuzzInput),
      FuzzInput.arbitrary path u = some inp →
      1 ≤ inp.size ∧ inp.size ≤ 16777216
      ∧ (∀ o, inp.range.offset = some o → o ≤ inp.size - 1)
      ∧ (∀ o s, inp.range.offset = some o → inp.range.size = some s →
          o + s ≤ inp.size)
      ∧ (inp.range.resolve inp.size).1 ≤ (inp.range.resolve inp.size).2
      ∧ (inp.range.resolve inp.size).2 ≤ inp.size
      ∧ inp.range.resolve inp.size = inp.range.resolveUnclamped inp.size := by
  intro path u inp h
  obtain ⟨h1, h2, -, -, -⟩ := arbitrary_inv h
  have hr := arbitrary_range_ok h
  have hmax : MAX_DATA_SIZE = 16777216 := by decide
  obtain ⟨ht1, ht2, ht3⟩ := resolve_tight h1 hr
  refine ⟨h1, by omega, ?_, ?_, ht2, ht3, ht1⟩
  · intro o ho
    rw [ho] at hr
    rcases hsz : inp.range.size with _ | s <;> rw [hsz] at hr <;>
      simp only [rangeOK] at hr <;> omega
  · intro o s ho hs
    rw [ho, hs] at hr
    simp only [rangeOK] at hr
    omega

/-- C2 witness: the all-zero stream generates the concrete input
`{path := "p", size := 1, range := full, actions := [Read 0]}`, and the
claimed bounds hold for it. -/
theorem c2_witness :
    1 ≤ inpRead0.size ∧ inpRead0.size ≤ 16777216
    ∧ (∀ o, inpRead0.range.offset = some o → o ≤ inpRead0.size - 1)
    ∧ (∀ o s, inpRead0.range.offset = some o → inpRead0.range.size = some s →
        o + s ≤ inpRead0.size)
    ∧ (inpRead0.range.resolve inpRead0.size).1 ≤ (inpRead0.range.resolve inpRead0.size).2
    ∧ (inpRead0.range.resolve inpRead0.size).2 ≤ inpRead0.size
    ∧ inpRead0.range.resolve inpRead0.size
        = inpRead0.range.resolveUnclamped inpRead0.size :=
  c2_generated_ranges_within_object "p" uZero inpRead0 (by decide)

/-- C3: a generated `Seek(FromStart, o)` never carries a negative offset
(the offset is a cast non-negative integer); `Seek(FromCurrent, d)` with
`pos + d < 0` and `Seek(FromEnd, d)` with `winLen + d < 0` always fault
and leave the replayed reader's position unchanged; the generator draws
both signed deltas from `[-total_size, total_size]`, and a faulting seek
is reachable in a generated sequence (witnessed by a concrete stream
generating `Seek(Current, -1)`, which faults at the initial position). -/
theorem c3_seek_fault_boundary :
    (∀ (path : String) (u : Unstructured) (inp : FuzzInput),
      FuzzInput.arbitrary path u = some inp →
      ∀ a ∈ inp.actions,
        (∀ o, a = ReadAction.Seek (SeekFrom.Start o) → 0 ≤ (o : Int))
        ∧ (∀ d, a = ReadAction.Seek (SeekFrom.Current d) →
            -(inp.size : Int) ≤ d ∧ d ≤ (inp.size : Int))
        ∧ (∀ d, a = ReadAction.Seek (SeekFrom.End d) →
            -(inp.size : Int) ≤ d ∧ d ≤ (inp.size : Int)))
    ∧ (∀ (r : Reader) (d : Int), (r.pos : Int) + d < 0 →
        r.seek (SeekFrom.Current d) = none)
    ∧ (∀ (r : Reader) (d : Int), (r.winLen : Int) + d < 0 →
        r.seek (SeekFrom.End d) = none)
    ∧ (∀ (fetchOk : Bool) (content window : List Nat) (winLen : Nat)
        (st : CheckState) (d : Int), (st.reader.pos : Int) + d < 0 →
        (checkStep fetchOk content window winLen st
            (ReadAction.Seek (SeekFrom.Current d))).reader = st.reader)
    ∧ (∃ (u : Unstructured) (inp : FuzzInput),
        FuzzInput.arbitrary "p" u = some inp
        ∧ ReadAction.Seek (SeekFrom.Current (-1)) ∈ inp.actions
        ∧ (mkReader inp.size inp.range harnessCapacity).seek
            (SeekFrom.Current (-1)) = none) := by
  refine ⟨?_, ?_, ?_, ?_, ?_⟩
  · intro path u inp h a ha
    have hok := arbitrary_actions_ok h a ha
    refine ⟨?_, ?_, ?_⟩
    · intro o hao
      omega
    · intro d had
      subst had
      exact hok
    · intro d had
      subst had
      exact hok
  · intro r d h
    exact seek_current_fault h
  · intro r d h
    exact seek_end_fault h
  · intro fetchOk content window winLen st d h
    exact (checkStep_seek_fault (seek_current_fault h)).1
  · exact ⟨uCurNeg, inpCurNeg, by decide, by decide, by decide⟩

/-- C4: generated `Seek(FromStart, o)` offsets range over
`[0, 2 * total_size]` and can land beyond the window's length (a concrete
generated input witnesses this); every `FromStart` seek succeeds, and a
read issued at or past the window's end returns an empty success, not a
fault. -/
theorem c4_seek_past_end_is_legal :
    (∀ (path : String) (u : Unstructured) (inp : FuzzInput),
      FuzzInput.arbitrary path u = some inp →
      ∀ o, ReadAction.Seek (SeekFrom.Start o) ∈ inp.actions → o ≤ 2 * inp.size)
    ∧ (∀ (r : Reader) (o : Nat), ∃ r2 : Reader,
        r.seek (SeekFrom.Start o) = some (o, r2) ∧ r2.pos = o ∧ r2.winLen = r.winLen)
    ∧ (∀ (r r2 : Reader) (o : Nat) (fetchOk : Bool) (content : List Nat) (n : Nat),
        r.seek (SeekFrom.Start o) = some (o, r2) → r.winLen ≤ o →
        r2.read fetchOk content n = .ok ([], r2, []))
    ∧ (∃ (u : Unstructured) (inp : FuzzInput),
        FuzzInput.arbitrary "p" u = some inp
        ∧ ∃ o, ReadAction.Seek (SeekFrom.Start o) ∈ inp.actions
          ∧ (mkReader inp.size inp.range harnessCapacity).winLen < o) := by
  refine ⟨?_, seek_start, ?_, ?_⟩
  · intro path u inp h o ho
    have hok := arbitrary_actions_ok h _ ho
    exact hok
  · intro r r2 o fetchOk content n hseek hpast
    obtain ⟨r2', hs', hpos', hwin'⟩ := seek_start r o
    rw [hseek] at hs'
    injection hs' with hs'
    obtain rfl : r2 = r2' := congrArg Prod.snd hs'
    exact read_eof (by omega) fetchOk content n
  · exact ⟨uStartPast, inpStartPast, by decide, 2, by decide, by decide⟩

/-- C5: once the reader's logical position equals the window length,
every `Read(n)` with `n > 0` returns an empty success leaving the
position unchanged — never a fault or an error — and the generator's
request sizes range up to `2 * total_size`, which can exceed the whole
window (concrete generated witness `Read(2)` against a window of
length 1). -/
theorem c5_reads_at_eof_return_empty :
    (∀ (r : Reader) (fetchOk : Bool) (content : List Nat) (n : Nat),
      r.pos = r.winLen → 0 < n →
      r.read fetchOk content n = .ok ([], r, []))
    ∧ (∀ (path : String) (u : Unstructured) (inp : FuzzInput),
      FuzzInput.arbitrary path u = some inp →
      ∀ n, ReadAction.Read n ∈ inp.actions → n ≤ 2 * inp.size)
    ∧ (∃ (u : Unstructured) (inp : FuzzInput),
        FuzzInput.arbitrary "p" u = some inp
        ∧ ∃ n, ReadAction.Read n ∈ inp.actions
          ∧ (mkReader inp.size inp.range harnessCapacity).winLen < n) := by
  refine ⟨?_, ?_, ?_⟩
  · intro r fetchOk content n heq hn
    exact read_eof (by omega) fetchOk content n
  · intro path u inp h n hn
    exact arbitrary_actions_ok h _ hn
  · exact ⟨uReadBig, inpReadBig, by decide, 2, by decide, by decide⟩

/-- C5 witness: at a concrete reader whose position equals its window
length, `Read(1)` returns the empty success with the state unchanged. -/
theorem c5_witness :
    (Reader.mk 0 1 4096 1 0 []).read false [0] 1
      = .ok ([], Reader.mk 0 1 4096 1 0 [], []) :=
  (c5_reads_at_eof_return_empty).1 (Reader.mk 0 1 4096 1 0 []) false [0] 1 rfl
    (by omega)

/-- C6: `Read(0)` returns an empty byte sequence without touching the
backend (it succeeds even when every fetch would fail, and issues no
fetch), the generator produces `Read(0)` (witnessed by the all-zero
stream), and the `Debug` formatting omits every `Read(0)` entry from the
displayed action list. -/
theorem c6_read_zero_is_noop_and_hidden :
    (∀ (r : Reader) (fetchOk : Bool) (content : List Nat),
      r.read fetchOk content 0 = .ok ([], r, []))
    ∧ (∀ input : FuzzInput, ReadAction.Read 0 ∉ input.fmtActions)
    ∧ (∀ input : FuzzInput, input.fmtActions
        = input.actions.filter (fun a => decide (a ≠ ReadAction.Read 0)))
    ∧ (∃ (u : Unstructured) (inp : FuzzInput),
        FuzzInput.arbitrary "p" u = some inp
        ∧ ReadAction.Read 0 ∈ inp.actions) := by
  refine ⟨read_zero, ?_, fun _ => rfl, ?_⟩
  · intro input hmem
    have := (List.mem_filter.mp hmem).2
    simp at this
  · exact ⟨uZero, inpRead0, by decide, by decide⟩

/-- C8: on every successful fuzz run the backend is restored: the object
staged at the input's path is gone afterwards, every other path is
untouched, and the only mutating backend operations of the whole run are
the harness's one write before the check and one delete after it — the
reader under test contributes only read-only fetches. -/
theorem c8_backend_restored_on_success :
    ∀ (env : Env) (b : Backend) (input : FuzzInput),
      (fuzz_reader_with_buffer env b input).isSuccess = true →
      (fuzz_reader_with_buffer env b input).finalObjects input.path = none
      ∧ (∀ q, q ≠ input.path →
          (fuzz_reader_with_buffer env b input).finalObjects q = b.objects q)
      ∧ (fuzz_reader_with_buffer env b input).trace.filter Op.isMut
          = [Op.write input.path, Op.delete input.path] := by
  intro env b input h
  rw [harness_success_inv h]
  refine ⟨by simp [Outcome.finalObjects], ?_, ?_⟩
  · intro q hq
    simp [Outcome.finalObjects, hq]
  · have hops : (harnessRes env input).ops.filter Op.isMut = [] := by
      refine List.filter_eq_nil_iff.mpr ?_
      intro op hop
      have := runCheck_ops_mut env.fetchOk (referenceData input.size) input.range
        input.size (mkReader input.size input.range harnessCapacity) input.actions
        op hop
      simp [this]
    simp [Outcome.trace, List.filter_append, hops, Op.isMut]

/-- C8 witness: a concrete all-successful run over the empty backend with
the generated input `{path := "p", size := 1, range := full,
actions := [Read 0]}` ends with the object gone and exactly the write
and the delete as mutating operations. -/
theorem c8_witness :
    (fuzz_reader_with_buffer envAllOk emptyBackend inpRead0).finalObjects
        inpRead0.path = none
    ∧ (∀ q, q ≠ inpRead0.path →
        (fuzz_reader_with_buffer envAllOk emptyBackend inpRead0).finalObjects q
          = emptyBackend.objects q)
    ∧ (fuzz_reader_with_buffer envAllOk emptyBackend inpRead0).trace.filter Op.isMut
        = [Op.write inpRead0.path, Op.delete inpRead0.path] :=
  c8_backend_restored_on_success envAllOk emptyBackend inpRead0 (by decide)

/-- C9: the `Debug` formatting never modifies the input — it filters the
`Read(0)` entries out of a copy for display only, it is deterministic,
and the action sequence the harness replays through the checker is the
original unfiltered one: a successful run replays exactly
`input.actions.length` actions, one per action, `Read(0)` included, while
the displayed list can differ from the replayed one. -/
theorem c9_fmt_is_pure_display_only :
    (∀ i j : FuzzInput, i = j → FuzzInput.fmt i = FuzzInput.fmt j)
    ∧ (∀ input : FuzzInput, FuzzInput.fmt input
        = (input.path, input.size, input.range,
            input.actions.filter (fun a => decide (a ≠ ReadAction.Read 0))))
    ∧ (∀ (env : Env) (b : Backend) (input : FuzzInput),
        (fuzz_reader_with_buffer env b input).isSuccess = true →
        (fuzz_reader_with_buffer env b input).checkedSteps = input.actions.length)
    ∧ (∃ input : FuzzInput, FuzzInput.fmtActions input ≠ input.actions) := by
  refine ⟨fun i j h => h ▸ rfl, fun _ => rfl, ?_, ⟨inpRead0, by decide⟩⟩
  intro env b input h
  rw [harness_success_inv h]
  show (harnessRes env input).steps = input.actions.length
  exact runCheck_steps ..

end OpendalFuzz
